import Mathlib

/-!
Shallow embedding of the gaming-api deal pipeline (src/server.js): deal
aggregation with per-game deduplication, the per-currency cache, Steam
metadata enrichment with retry/backoff, and the /deals read path.

JS conventions used throughout the embedding: a nullable string is an
`Option String` (`none` for `null`/`undefined`), JS falsiness of such a
value also counts the empty string as falsy, object lookups are
association-list lookups returning `Option`, and `parseFloat` of the
upstream decimal price string is modelled as an already-parsed rational.
-/

/-- Metadata extracted from the Steam appdetails response
(server.js lines 275-282). -/
structure SteamMeta where
  name : String
  release_date : Option String
  year : Option String
  genres : List String
  publishers : List String
  rating : Option Nat
deriving DecidableEq

/-- Payload of a successful appdetails entry (`info.data`): `release_date`
models `data.release_date?.date` flattened, `genres` models
`data.genres?.map(g => g.description)`, `metacritic` models
`data.metacritic?.score`. -/
structure AppData where
  name : String
  release_date : Option String
  genres : Option (List String)
  publishers : Option (List String)
  metacritic : Option Nat
deriving DecidableEq

/-- Entry `res.data[id]` of the appdetails response. -/
structure AppInfo where
  success : Bool
  data : AppData
deriving DecidableEq

/-- Raw deal record from a CheapShark deals page. `steamAppID` is `none`
for JSON `null`; `salePrice` is the value `parseFloat(deal.salePrice)`
yields, modelled as a rational. -/
structure RawDeal where
  gameID : String
  steamAppID : Option String
  storeID : String
  salePrice : Rat
deriving DecidableEq

/-- Deal as stored in the per-currency cache: a raw deal with the resolved
`storeName` attached and the `steamMeta` field (`none` models the `null`
placeholder). -/
structure Deal where
  gameID : String
  steamAppID : Option String
  storeID : String
  storeName : String
  salePrice : Rat
  steamMeta : Option SteamMeta
deriving DecidableEq

/-- Cache entry per currency (server.js lines 139-142). -/
structure CacheEntry where
  timestamp : Nat
  data : List Deal
deriving DecidableEq

/-- CACHE_TTL, one hour in milliseconds (server.js line 21). -/
def CACHE_TTL : Nat := 1000 * 60 * 60

/-- CURRENCIES tracked by the scheduler and by the enrichment patch loop
(server.js line 22). -/
def CURRENCIES : List String := ["USD", "CAD"]

/-- STORE_PRIORITY table (server.js lines 25-29); `none` models a missing
key (`undefined`). All stored ranks are nonzero, so JS truthiness of
`STORE_PRIORITY[s]` coincides with key membership. -/
def STORE_PRIORITY (s : String) : Option Nat :=
  if s = "steam" then some 1
  else if s = "humble store" then some 2
  else if s = "fanatical" then some 3
  else none

/-- Lookup in an association list modelling a JS object keyed by strings
(an object's keys are unique, so the first match suffices). -/
def lookupStr {α : Type} : List (String × α) → String → Option α
  | [], _ => none
  | (k, v) :: rest, key => if k = key then some v else lookupStr rest key

/-- Truthiness of a nullable JS string: `null`/`undefined` and the empty
string are falsy. -/
def truthyStr : Option String → Bool
  | none => false
  | some s => !s.isEmpty

/-- JS `toLowerCase()` on the store names in play (ASCII), modelled
characterwise. -/
def strToLower (s : String) : String := String.mk (s.data.map Char.toLower)

/-- JS `toUpperCase()` on currency codes (ASCII), modelled characterwise. -/
def strToUpper (s : String) : String := String.mk (s.data.map Char.toUpper)

/-- Resolution `storeMap[deal.storeID] || "unknown"` (server.js line 88). -/
def storeNameOf (storeMap : List (String × String)) (r : RawDeal) : String :=
  (lookupStr storeMap r.storeID).getD "unknown"

/-- Raw deal with its resolved store name attached
(`deal.storeName = storeMap[deal.storeID] || "unknown"`); the `steamMeta`
field is filled later by the reattach step of fetchDeals. -/
def mkDeal (storeMap : List (String × String)) (r : RawDeal) : Deal :=
  { gameID := r.gameID, steamAppID := r.steamAppID, storeID := r.storeID,
    storeName := storeNameOf storeMap r, salePrice := r.salePrice,
    steamMeta := none }

/-- Replacement `uniqueGames[gameId] = deal` for an existing key: the key
keeps its position, only the value changes. -/
def updateUG : List (String × Deal) → String → Deal → List (String × Deal)
  | [], _, _ => []
  | (k, v) :: rest, gid, d =>
    if k = gid then (k, d) :: rest else (k, v) :: updateUG rest gid d

/-- Body of the per-deal loop of fetchDeals (server.js lines 87-119):
skip deals without a truthy `steamAppID` or whose lowercased store name is
not in STORE_PRIORITY, then deduplicate per `gameID`, keeping the lower
sale price, breaking exact price ties by lower store priority, and keeping
the incumbent otherwise (a comparison against an `undefined` incumbent
priority is false in JS, hence also keeps the incumbent). A new key is
appended at the end, matching JS string-key insertion order. -/
def processDeal (storeMap : List (String × String))
    (uniqueGames : List (String × Deal)) (r : RawDeal) :
    List (String × Deal) :=
  let deal := mkDeal storeMap r
  if truthyStr r.steamAppID = false then uniqueGames
  else
    let dealStore := strToLower deal.storeName
    match STORE_PRIORITY dealStore with
    | none => uniqueGames
    | some dealPrio =>
      match lookupStr uniqueGames r.gameID with
      | none => uniqueGames ++ [(r.gameID, deal)]
      | some current =>
        let currentStore := strToLower current.storeName
        if deal.salePrice < current.salePrice then
          updateUG uniqueGames r.gameID deal
        else if deal.salePrice = current.salePrice then
          match STORE_PRIORITY currentStore with
          | some currentPrio =>
            if dealPrio < currentPrio then updateUG uniqueGames r.gameID deal
            else uniqueGames
          | none => uniqueGames
        else uniqueGames

/-- Outcome of one fetchDeals call: the empty-store-id early return, a
page-fetch failure caught by the surrounding try, or a completed
aggregation. -/
inductive FetchOutcome where
  | configError
  | fetchError
  | success
deriving DecidableEq

/-- Result of the page loop: accumulated unique games, number of page
fetches issued, and whether a page fetch failed. -/
structure LoopResult where
  uniqueGames : List (String × Deal)
  pageFetches : Nat
  failed : Bool
deriving DecidableEq

/-- Page loop of fetchDeals (server.js lines 75-124):
`while (uniqueGames.length < 1000 && page < 100)`. `remaining` stands for
`100 - page`, so `remaining = 0` is exactly the `page < 100` exit; a
throwing `axios.get` ends the loop with `failed := true`. `fetchPage`
abstracts the page request for the call's fixed currency and store ids. -/
def fetchLoop (fetchPage : Nat → Except Unit (List RawDeal))
    (storeMap : List (String × String)) :
    Nat → Nat → List (String × Deal) → Nat → LoopResult
  | 0, _, ug, count => ⟨ug, count, false⟩
  | remaining + 1, page, ug, count =>
    if ug.length < 1000 then
      match fetchPage page with
      | Except.error _ => ⟨ug, count + 1, true⟩
      | Except.ok raws =>
        fetchLoop fetchPage storeMap remaining (page + 1)
          (raws.foldl (processDeal storeMap) ug) (count + 1)
    else ⟨ug, count, false⟩

/-- JS `String(deal.steamAppID)` (`String(null)` is the string `"null"`). -/
def appIdStr (d : Deal) : String :=
  match d.steamAppID with
  | some s => s
  | none => "null"

/-- Result of fetchDeals: outcome, the currency cache after the call, and
the number of page fetches issued. -/
structure FetchResult where
  outcome : FetchOutcome
  cache : String → Option CacheEntry
  pageFetches : Nat

/-- fetchDeals (server.js lines 58-153): abort on an empty store-id list
before any request; page through deals; on success reattach cached Steam
metadata (`undefined` becomes the `null` placeholder) and atomically swap
the currency's cache entry; on a page-fetch failure leave every cache
entry untouched. -/
def fetchDeals (fetchPage : Nat → Except Unit (List RawDeal))
    (storeMap : List (String × String))
    (steamMetaCache : String → Option (Option SteamMeta)) (now : Nat)
    (cache : String → Option CacheEntry) (currency : String)
    (storeIDs : List String) : FetchResult :=
  if storeIDs.length = 0 then ⟨FetchOutcome.configError, cache, 0⟩
  else
    let r := fetchLoop fetchPage storeMap 100 0 [] 0
    if r.failed then ⟨FetchOutcome.fetchError, cache, r.pageFetches⟩
    else
      let uniqueDeals :=
        (r.uniqueGames.map (fun p => p.2)).map
          (fun d => { d with steamMeta := (steamMetaCache (appIdStr d)).getD none })
      ⟨FetchOutcome.success,
        fun c => if c = currency then some ⟨now, uniqueDeals⟩ else cache c,
        r.pageFetches⟩

/-- Leftmost four consecutive ASCII digits of a string, modelling
`/\d{4}/.test(date)` together with `date.match(/\d{4}/)[0]`. -/
def findYear : List Char → Option String
  | c1 :: c2 :: c3 :: c4 :: rest =>
    if c1.isDigit && c2.isDigit && c3.isDigit && c4.isDigit then
      some (String.mk [c1, c2, c3, c4])
    else findYear (c2 :: c3 :: c4 :: rest)
  | _ => none

/-- Parsing of `info.data` into the stored metadata (server.js lines
273-282). JS falsiness: an empty date string and a metacritic score of 0
are falsy, hence become null. -/
def parseAppData (d : AppData) : SteamMeta :=
  let date := d.release_date
  { name := d.name
    release_date := if truthyStr date then date else none
    year := if truthyStr date then findYear (date.getD "").data else none
    genres := d.genres.getD []
    publishers := d.publishers.getD []
    rating :=
      match d.metacritic with
      | some s => if s = 0 then none else some s
      | none => none }

/-- Resolution of `res.data[id]` (server.js lines 269-283): a missing or
unsuccessful entry yields null metadata. -/
def parseInfo : Option AppInfo → Option SteamMeta
  | none => none
  | some info => if info.success then some (parseAppData info.data) else none

/-- MAX_ATTEMPTS of the per-identifier retry loop (server.js line 258). -/
def MAX_ATTEMPTS : Nat := 30

/-- Backoff delay computed in the throttling branch (server.js line 308):
`Math.min(30000, 1000 * Math.pow(2, attempts))`, where `attempts` has
already been incremented for the current attempt. -/
def backoffDelay (attempts : Nat) : Nat := min 30000 (1000 * 2 ^ attempts)

/-- Upstream behaviour of one appdetails request: a parsed response body,
a throttling failure (HTTP 429 or 403), or any other error. -/
inductive SteamResp where
  | ok (info : Option AppInfo)
  | throttle
  | err

/-- Result of the retry loop for one identifier: `result = none` when the
attempt budget was exhausted (identifier left unknown), otherwise the
metadata value resolved (`some none` = fetched-and-absent); `delays` are
the backoff sleeps in order; `attemptsUsed` counts requests issued. -/
structure RetryResult where
  result : Option (Option SteamMeta)
  delays : List Nat
  attemptsUsed : Nat
deriving DecidableEq

/-- Retry loop for one identifier (server.js lines 257-319):
`while (!done && attempts < MAX_ATTEMPTS)`; `remaining` stands for
`MAX_ATTEMPTS - attempts`, and `resp` is indexed by the 1-based attempt
number. On throttle the delay is recorded and the loop retries; any other
error resolves to null; a response resolves through parseInfo. -/
def retryLoop (resp : Nat → SteamResp) : Nat → Nat → RetryResult
  | 0, _ => ⟨none, [], 0⟩
  | remaining + 1, attempts =>
    let a := attempts + 1
    match resp a with
    | SteamResp.ok info => ⟨some (parseInfo info), [], 1⟩
    | SteamResp.err => ⟨some none, [], 1⟩
    | SteamResp.throttle =>
      let r := retryLoop resp remaining a
      ⟨r.result, backoffDelay a :: r.delays, r.attemptsUsed + 1⟩

/-- Patch `cur.data.find(d => String(d.steamAppID) === id)` followed by
`match.steamMeta = deal.steamMeta`: only the first matching deal of the
sequence changes. -/
def patchFirst (id : String) (v : Option SteamMeta) : List Deal → List Deal
  | [] => []
  | d :: rest =>
    if appIdStr d = id then { d with steamMeta := v } :: rest
    else d :: patchFirst id v rest

/-- Body of the per-currency patch loop (server.js lines 288-296): a
missing entry is skipped, otherwise the entry keeps its timestamp and only
its first matching deal is patched. -/
def patchOne (id : String) (v : Option SteamMeta)
    (cache : String → Option CacheEntry) (currency : String) :
    String → Option CacheEntry :=
  match cache currency with
  | none => cache
  | some e =>
    fun c =>
      if c = currency then some ⟨e.timestamp, patchFirst id v e.data⟩
      else cache c

/-- Patch of the cached deals after one identifier resolves (server.js
lines 288-296): the loop iterates CURRENCIES only. -/
def patchCache (cache : String → Option CacheEntry) (id : String)
    (v : Option SteamMeta) : String → Option CacheEntry :=
  CURRENCIES.foldl (patchOne id v) cache

/-- Writes performed when one identifier resolves (server.js lines
285-296): store the value in the metadata cache, then patch the currency
caches. -/
def applyResolution (steamMetaCache : String → Option (Option SteamMeta))
    (cache : String → Option CacheEntry) (id : String) (v : Option SteamMeta) :
    (String → Option (Option SteamMeta)) × (String → Option CacheEntry) :=
  (fun k => if k = id then some v else steamMetaCache k, patchCache cache id v)

/-- Filter at the top of enrichWithSteamData (server.js lines 224-231):
keep deals with a truthy steamAppID, deduplicated by id (`seen` grows at
every first sight of an id), restricted to ids whose cached metadata is
undefined or null. -/
def filterSteamDeals (steamMetaCache : String → Option (Option SteamMeta))
    (seen : List String) : List Deal → List Deal
  | [] => []
  | d :: rest =>
    if truthyStr d.steamAppID = false then
      filterSteamDeals steamMetaCache seen rest
    else
      let id := appIdStr d
      if id ∈ seen then filterSteamDeals steamMetaCache seen rest
      else
        match steamMetaCache id with
        | none => d :: filterSteamDeals steamMetaCache (id :: seen) rest
        | some none => d :: filterSteamDeals steamMetaCache (id :: seen) rest
        | some (some _) => filterSteamDeals steamMetaCache (id :: seen) rest

/-- Main enrichment loop (server.js lines 243-331), one filtered deal at a
time: an identifier already cached with real data is skipped; otherwise
the retry loop runs; a resolution (success or terminal failure) is written
through applyResolution; an exhausted attempt budget leaves every store
untouched. The loop never aborts early, whatever each identifier's
outcome. -/
def enrichLoop (resp : String → Nat → SteamResp) :
    (String → Option (Option SteamMeta)) → (String → Option CacheEntry) →
    List Deal →
    (String → Option (Option SteamMeta)) × (String → Option CacheEntry)
  | mc, cache, [] => (mc, cache)
  | mc, cache, d :: rest =>
    let id := appIdStr d
    match mc id with
    | some (some _) => enrichLoop resp mc cache rest
    | _ =>
      match (retryLoop (resp id) MAX_ATTEMPTS 0).result with
      | some v =>
        let st := applyResolution mc cache id v
        enrichLoop resp st.1 st.2 rest
      | none => enrichLoop resp mc cache rest

/-- enrichWithSteamData (server.js lines 222-334) restricted to its
observable state: the Steam metadata cache and the currency caches. -/
def enrich (resp : String → Nat → SteamResp)
    (steamMetaCache : String → Option (Option SteamMeta))
    (cache : String → Option CacheEntry) (deals : List Deal) :
    (String → Option (Option SteamMeta)) × (String → Option CacheEntry) :=
  enrichLoop resp steamMetaCache cache (filterSteamDeals steamMetaCache [] deals)

/-- Body of the /deals JSON response (server.js lines 190-196). -/
structure DealsResponse where
  success : Bool
  cached : Bool
  currency : String
  count : Nat
  deals : List Deal
deriving DecidableEq

/-- Result of one /deals request: the response sent and the currencies for
which a fetchDeals refresh was triggered as a side effect. -/
structure GetResult where
  response : DealsResponse
  refreshes : List String
deriving DecidableEq

/-- GET /deals handler (server.js lines 178-201): uppercase the currency
query parameter (default "USD"), look the entry up, compute expiry as
`Date.now() - entry.timestamp > CACHE_TTL` (a missing entry counts as
expired), trigger one refresh when expired, and answer from the current
entry (count 0 and empty deals when absent). -/
def getDeals (cache : String → Option CacheEntry) (now : Nat)
    (query : Option String) : GetResult :=
  let currency := strToUpper (query.getD "USD")
  let entry := cache currency
  let isExpired : Bool :=
    match entry with
    | none => true
    | some e => decide (CACHE_TTL < now - e.timestamp)
  let wasCached : Bool := entry.isSome && !isExpired
  { response :=
      { success := true
        cached := wasCached
        currency := currency
        count := match entry with | some e => e.data.length | none => 0
        deals := match entry with | some e => e.data | none => [] }
    refreshes := if isExpired then [currency] else [] }

/-- C1: in fetchDeals, for two raw deals with the same game identifier
that both pass the filters (truthy steamAppID, store in STORE_PRIORITY),
exactly one survivor is kept for that game: the strictly lower parsed sale
price wins; on exact price equality the lower store-priority rank wins; on
equal price and equal rank the first-seen deal is kept. -/
theorem dedup_pair_order (sm : List (String × String)) (r1 r2 : RawDeal)
    (hg : r2.gameID = r1.gameID)
    (h1t : truthyStr r1.steamAppID = true) (p1 : Nat)
    (h1p : STORE_PRIORITY (strToLower (storeNameOf sm r1)) = some p1)
    (h2t : truthyStr r2.steamAppID = true) (p2 : Nat)
    (h2p : STORE_PRIORITY (strToLower (storeNameOf sm r2)) = some p2) :
    processDeal sm (processDeal sm [] r1) r2 =
      [(r1.gameID,
        if r2.salePrice < r1.salePrice ∨ (r2.salePrice = r1.salePrice ∧ p2 < p1)
        then mkDeal sm r2 else mkDeal sm r1)] := by
  have hfirst : processDeal sm [] r1 = [(r1.gameID, mkDeal sm r1)] := by
    simp [processDeal, mkDeal, lookupStr, h1t, h1p]
  rw [hfirst]
  rcases lt_trichotomy r2.salePrice r1.salePrice with hlt | heq | hgt
  · simp [processDeal, mkDeal, lookupStr, updateUG, h2t, h2p, hg, h1p, hlt]
  · by_cases hp : p2 < p1
    · simp [processDeal, mkDeal, lookupStr, updateUG, h2t, h2p, hg, h1p, heq, hp]
    · simp [processDeal, mkDeal, lookupStr, updateUG, h2t, h2p, hg, h1p, heq, hp]
  · simp [processDeal, mkDeal, lookupStr, updateUG, h2t, h2p, hg, h1p,
      lt_asymm hgt, ne_of_gt hgt]

/-- Store map for the C1 witness. -/
def smC1 : List (String × String) := [("1", "steam"), ("2", "humble store")]

/-- First-seen raw deal of the C1 witness: game "g" on steam at price 2. -/
def rC1a : RawDeal :=
  { gameID := "g", steamAppID := some "5", storeID := "1", salePrice := 2 }

/-- Second raw deal of the C1 witness: game "g" on humble store at the
strictly lower price 1. -/
def rC1b : RawDeal :=
  { gameID := "g", steamAppID := some "5", storeID := "2", salePrice := 1 }

/-- Witness for C1: the cheaper later deal replaces the first-seen one. -/
theorem dedup_pair_order_witness :
    processDeal smC1 (processDeal smC1 [] rC1a) rC1b =
      [("g", mkDeal smC1 rC1b)] := by
  have h := dedup_pair_order smC1 rC1a rC1b rfl (by decide) 1 (by decide)
    (by decide) 2 (by decide)
  rw [h]
  norm_num [rC1a, rC1b]

/-- C9: fetchDeals called with an empty store-id list fails fast with a
configuration error before issuing any upstream request: no page fetch is
performed and every currency's cache entry is unchanged. -/
theorem fetchDeals_empty_storeIDs (fetchPage : Nat → Except Unit (List RawDeal))
    (sm : List (String × String)) (mc : String → Option (Option SteamMeta))
    (now : Nat) (cache : String → Option CacheEntry) (currency : String)
    (storeIDs : List String) (h : storeIDs = []) :
    (fetchDeals fetchPage sm mc now cache currency storeIDs).outcome =
        FetchOutcome.configError ∧
    (fetchDeals fetchPage sm mc now cache currency storeIDs).pageFetches = 0 ∧
    ∀ c, (fetchDeals fetchPage sm mc now cache currency storeIDs).cache c =
      cache c := by
  subst h
  simp [fetchDeals]

/-- Witness for C9 at a concrete empty store-id call. -/
theorem fetchDeals_empty_storeIDs_witness :
    (fetchDeals (fun _ => Except.ok []) [] (fun _ => none) 0
        (fun _ => none) "USD" []).outcome = FetchOutcome.configError ∧
    (fetchDeals (fun _ => Except.ok []) [] (fun _ => none) 0
        (fun _ => none) "USD" []).pageFetches = 0 ∧
    ∀ c, (fetchDeals (fun _ => Except.ok []) [] (fun _ => none) 0
        (fun _ => none) "USD" []).cache c =
      (fun _ => (none : Option CacheEntry)) c :=
  fetchDeals_empty_storeIDs _ _ _ _ _ _ _ rfl

/-- C4: a page-fetch failure during fetchDeals leaves the cache entry of
every currency exactly as it was (partially accumulated deals are
discarded), and a cache entry can only change through a fully successful
aggregation, and then only for the fetched currency. -/
theorem fetchDeals_failure_no_write (fetchPage : Nat → Except Unit (List RawDeal))
    (sm : List (String × String)) (mc : String → Option (Option SteamMeta))
    (now : Nat) (cache : String → Option CacheEntry) (currency : String)
    (storeIDs : List String) :
    ((fetchLoop fetchPage sm 100 0 [] 0).failed = true →
      ∀ c, (fetchDeals fetchPage sm mc now cache currency storeIDs).cache c =
        cache c) ∧
    (∀ c, (fetchDeals fetchPage sm mc now cache currency storeIDs).cache c ≠
        cache c →
      (fetchDeals fetchPage sm mc now cache currency storeIDs).outcome =
        FetchOutcome.success ∧ c = currency) := by
  constructor
  · intro hfail c
    by_cases hlen : storeIDs.length = 0
    · simp [fetchDeals, hlen]
    · simp [fetchDeals, hlen, hfail]
  · intro c hne
    by_cases hlen : storeIDs.length = 0
    · simp [fetchDeals, hlen] at hne
    · by_cases hfail : (fetchLoop fetchPage sm 100 0 [] 0).failed = true
      · simp [fetchDeals, hlen, hfail] at hne
      · refine ⟨by simp [fetchDeals, hlen, hfail], ?_⟩
        by_contra hc
        apply hne
        simp [fetchDeals, hlen, hfail, hc]

/-- Witness for C4: a failing page stub leaves a pre-existing entry. -/
theorem fetchDeals_failure_no_write_witness :
    (fetchDeals (fun _ => Except.error ()) [] (fun _ => none) 0
        (fun _ => some ⟨3, []⟩) "USD" ["1"]).cache "USD" = some ⟨3, []⟩ := by
  have h := (fetchDeals_failure_no_write (fun _ => Except.error ()) [] (fun _ => none)
      0 (fun _ => some ⟨3, []⟩) "USD" ["1"]).1 (by decide) "USD"
  simpa using h

/-- Helper: unfolding of one fetchLoop iteration. -/
theorem fetchLoop_succ (fetchPage : Nat → Except Unit (List RawDeal))
    (sm : List (String × String)) (n page : Nat) (ug : List (String × Deal))
    (count : Nat) :
    fetchLoop fetchPage sm (n + 1) page ug count =
      (if ug.length < 1000 then
        match fetchPage page with
        | Except.error _ => ⟨ug, count + 1, true⟩
        | Except.ok raws =>
          fetchLoop fetchPage sm n (page + 1)
            (raws.foldl (processDeal sm) ug) (count + 1)
      else ⟨ug, count, false⟩) := rfl

/-- Helper: the page-fetch count of fetchLoop grows by at most the
remaining page budget. -/
theorem fetchLoop_pageFetches_le (fetchPage : Nat → Except Unit (List RawDeal))
    (sm : List (String × String)) :
    ∀ remaining page ug count,
      (fetchLoop fetchPage sm remaining page ug count).pageFetches ≤
        count + remaining := by
  intro remaining
  induction remaining with
  | zero => intro page ug count; simp [fetchLoop]
  | succ n ih =>
    intro page ug count
    rw [fetchLoop_succ]
    by_cases h : ug.length < 1000
    · cases hf : fetchPage page with
      | error e => simp [h, hf]
      | ok raws =>
        have hrec := ih (page + 1) (raws.foldl (processDeal sm) ug) (count + 1)
        simp only [if_pos h, hf]
        omega
    · simp [h]

/-- C3: the page loop of fetchDeals issues at most 100 page fetches, and
once the 1000-unique-game target is reached it issues no further fetch:
when the first page already yields at least 1000 unique games and the
store-id list is non-empty, exactly one page fetch occurs. -/
theorem fetchDeals_page_bounds (fetchPage : Nat → Except Unit (List RawDeal))
    (sm : List (String × String)) (mc : String → Option (Option SteamMeta))
    (now : Nat) (cache : String → Option CacheEntry) (currency : String)
    (storeIDs : List String) :
    (fetchDeals fetchPage sm mc now cache currency storeIDs).pageFetches ≤ 100 ∧
    (∀ raws, fetchPage 0 = Except.ok raws →
      1000 ≤ (raws.foldl (processDeal sm) []).length → storeIDs ≠ [] →
      (fetchDeals fetchPage sm mc now cache currency storeIDs).pageFetches = 1) := by
  constructor
  · have h := fetchLoop_pageFetches_le fetchPage sm 100 0 [] 0
    by_cases hlen : storeIDs.length = 0
    · simp [fetchDeals, hlen]
    · by_cases hfail : (fetchLoop fetchPage sm 100 0 [] 0).failed = true
      · simp only [fetchDeals, hlen, if_neg, if_pos hfail, ite_false]
        simp [hlen, hfail]
        omega
      · simp [fetchDeals, hlen, hfail]
        omega
  · intro raws h0 hfull hne
    have hlen : ¬ storeIDs.length = 0 := by
      cases storeIDs with
      | nil => exact absurd rfl hne
      | cons a l => simp
    have h1 : fetchLoop fetchPage sm 100 0 [] 0 =
        fetchLoop fetchPage sm 99 1 (raws.foldl (processDeal sm) []) 1 := by
      rw [show (100 : Nat) = 99 + 1 from rfl, fetchLoop_succ, h0]
      simp
    have h2 : fetchLoop fetchPage sm 99 1 (raws.foldl (processDeal sm) []) 1 =
        ⟨raws.foldl (processDeal sm) [], 1, false⟩ := by
      rw [show (99 : Nat) = 98 + 1 from rfl, fetchLoop_succ,
        if_neg (Nat.not_lt.mpr hfull)]
    simp [fetchDeals, hlen, h1, h2]

/-- Helper: a raw deal passing both filters whose game identifier is not
yet present is appended to the accumulator. -/
theorem processDeal_fresh (sm : List (String × String))
    (ug : List (String × Deal)) (r : RawDeal)
    (ht : truthyStr r.steamAppID = true)
    (hp : (STORE_PRIORITY (strToLower (storeNameOf sm r))).isSome = true)
    (hl : lookupStr ug r.gameID = none) :
    processDeal sm ug r = ug ++ [(r.gameID, mkDeal sm r)] := by
  obtain ⟨p, hp'⟩ := Option.isSome_iff_exists.mp hp
  simp [processDeal, mkDeal, ht, hp', hl]

/-- Helper: a key absent from an association list stays absent after
appending an entry for a different key. -/
theorem lookupStr_append_ne {α : Type} (l : List (String × α)) (k key : String)
    (v : α) (h1 : lookupStr l key = none) (h2 : k ≠ key) :
    lookupStr (l ++ [(k, v)]) key = none := by
  induction l with
  | nil => simp [lookupStr, h2]
  | cons p rest ih =>
    obtain ⟨k', v'⟩ := p
    by_cases hk : k' = key
    · simp [lookupStr, hk] at h1
    · simp only [lookupStr, if_neg hk] at h1
      simp only [List.cons_append, lookupStr, if_neg hk]
      exact ih h1

/-- Helper: folding processDeal over filter-passing raw deals with
pairwise distinct fresh game identifiers adds one entry per deal. -/
theorem foldl_processDeal_fresh_length (sm : List (String × String)) :
    ∀ (l : List RawDeal) (ug : List (String × Deal)),
      (∀ r ∈ l, truthyStr r.steamAppID = true ∧
        (STORE_PRIORITY (strToLower (storeNameOf sm r))).isSome = true) →
      (l.map RawDeal.gameID).Nodup →
      (∀ r ∈ l, lookupStr ug r.gameID = none) →
      (l.foldl (processDeal sm) ug).length = ug.length + l.length := by
  intro l
  induction l with
  | nil => intro ug _ _ _; simp
  | cons r rest ih =>
    intro ug hval hnd hfresh
    have hr := hval r (List.mem_cons_self r rest)
    have hstep := processDeal_fresh sm ug r hr.1 hr.2
      (hfresh r (List.mem_cons_self r rest))
    rw [List.map_cons, List.nodup_cons] at hnd
    have hne : ∀ r' ∈ rest, r.gameID ≠ r'.gameID := by
      intro r' hr' he
      exact hnd.1 (by rw [he]; exact List.mem_map_of_mem _ hr')
    have hfresh' : ∀ r' ∈ rest,
        lookupStr (ug ++ [(r.gameID, mkDeal sm r)]) r'.gameID = none := by
      intro r' hr'
      exact lookupStr_append_ne ug r.gameID r'.gameID (mkDeal sm r)
        (hfresh r' (List.mem_cons_of_mem r hr')) (hne r' hr')
    have hrec := ih (ug ++ [(r.gameID, mkDeal sm r)])
      (fun r' hr' => hval r' (List.mem_cons_of_mem r hr')) hnd.2 hfresh'
    rw [List.foldl_cons, hstep, hrec]
    simp [List.length_append]
    omega

/-- Distinct game identifiers for the C3 witness, the index encoded in
the string length. -/
def gname (i : Nat) : String := String.mk (List.replicate i 'a')

/-- Store map of the C3 witness. -/
def smC3 : List (String × String) := [("1", "steam")]

/-- Raw deal of the C3 witness for game index i. -/
def rawC3 (i : Nat) : RawDeal :=
  { gameID := gname i, steamAppID := some "7", storeID := "1", salePrice := 1 }

/-- Page stub of the C3 witness: every page holds 1000 distinct games. -/
def pageC3 : Nat → Except Unit (List RawDeal) :=
  fun _ => Except.ok ((List.range 1000).map rawC3)

/-- Helper: gname is injective. -/
theorem gname_inj : Function.Injective gname := by
  intro i j h
  have hlen : (gname i).data.length = (gname j).data.length := by rw [h]
  simpa [gname] using hlen

set_option maxRecDepth 2000 in
/-- Witness for C3: with a stub upstream whose first page already yields
the 1000-unique-game target, exactly one page fetch occurs. -/
theorem fetchDeals_page_bounds_witness :
    (fetchDeals pageC3 smC3 (fun _ => none) 0 (fun _ => none) "USD"
        ["1"]).pageFetches = 1 := by
  have hval : ∀ r ∈ (List.range 1000).map rawC3,
      truthyStr r.steamAppID = true ∧
      (STORE_PRIORITY (strToLower (storeNameOf smC3 r))).isSome = true := by
    intro r hr
    obtain ⟨i, _, rfl⟩ := List.mem_map.mp hr
    refine ⟨?_, ?_⟩
    · rw [show (rawC3 i).steamAppID = some "7" from rfl]
      decide
    · rw [show storeNameOf smC3 (rawC3 i) = "steam" from rfl]
      decide
  have hnd : (((List.range 1000).map rawC3).map RawDeal.gameID).Nodup := by
    rw [List.map_map, show (RawDeal.gameID ∘ rawC3) = gname from rfl]
    exact (List.nodup_range 1000).map gname_inj
  have hfresh : ∀ r ∈ (List.range 1000).map rawC3,
      lookupStr ([] : List (String × Deal)) r.gameID = none := by
    intro r _; rfl
  have hfold := foldl_processDeal_fresh_length smC3 ((List.range 1000).map rawC3)
    [] hval hnd hfresh
  rw [List.length_map, List.length_range, List.length_nil] at hfold
  exact (fetchDeals_page_bounds pageC3 smC3 (fun _ => none) 0 (fun _ => none)
    "USD" ["1"]).2 ((List.range 1000).map rawC3) rfl (by omega)
    (by simp)

/-- Helper: a failed lookup means the key is absent. -/
theorem lookupStr_none_not_mem {α : Type} (l : List (String × α)) (k : String)
    (h : lookupStr l k = none) : k ∉ l.map Prod.fst := by
  induction l with
  | nil => simp
  | cons p rest ih =>
    obtain ⟨k', v'⟩ := p
    by_cases hk : k' = k
    · simp [lookupStr, hk] at h
    · simp only [lookupStr, if_neg hk] at h
      simp only [List.map_cons, List.mem_cons]
      rintro (he | he)
      · exact hk he.symm
      · exact ih h he

/-- Helper: a successful lookup returns one of the stored values. -/
theorem lookupStr_some_mem {α : Type} (l : List (String × α)) (k : String)
    (v : α) (h : lookupStr l k = some v) : v ∈ l.map Prod.snd := by
  induction l with
  | nil => simp [lookupStr] at h
  | cons p rest ih =>
    obtain ⟨k', v'⟩ := p
    by_cases hk : k' = k
    · simp only [lookupStr, if_pos hk, Option.some.injEq] at h
      simp [h]
    · simp only [lookupStr, if_neg hk] at h
      simp [ih h]

/-- Helper: in-place value replacement keeps the key sequence. -/
theorem updateUG_keys (ug : List (String × Deal)) (k : String) (d : Deal) :
    (updateUG ug k d).map Prod.fst = ug.map Prod.fst := by
  induction ug with
  | nil => rfl
  | cons p rest ih =>
    obtain ⟨k', v'⟩ := p
    by_cases hk : k' = k
    · simp [updateUG, hk]
    · simp [updateUG, hk, ih]

/-- Helper: every entry of an in-place update is an old entry or the new
binding at the updated key. -/
theorem updateUG_mem (ug : List (String × Deal)) (k : String) (d : Deal) :
    ∀ p ∈ updateUG ug k d, p ∈ ug ∨ p = (k, d) := by
  induction ug with
  | nil => simp [updateUG]
  | cons q rest ih =>
    obtain ⟨k', v'⟩ := q
    by_cases hk : k' = k
    · simp only [updateUG, if_pos hk]
      intro p hp
      rcases List.mem_cons.mp hp with he | he
      · right; rw [he, hk]
      · left; exact List.mem_cons_of_mem _ he
    · simp only [updateUG, if_neg hk]
      intro p hp
      rcases List.mem_cons.mp hp with he | he
      · left; rw [he]; exact List.mem_cons_self _ _
      · rcases ih p he with h1 | h1
        · left; exact List.mem_cons_of_mem _ h1
        · right; exact h1

/-- Helper: a truthy nullable string is not null. -/
theorem truthyStr_ne_none (o : Option String) (h : truthyStr o = true) :
    o ≠ none := by
  cases o with
  | none => simp [truthyStr] at h
  | some s => simp

/-- Helper: under the loadStores normalization (server.js line 40 stores
lowercased, trimmed names), a store name that passes the lowercased
priority check is itself a key of the priority table. -/
theorem storeName_priority (sm : List (String × String))
    (hnorm : ∀ p ∈ sm, strToLower p.2 = p.2) (r : RawDeal) (p : Nat)
    (hp : STORE_PRIORITY (strToLower (storeNameOf sm r)) = some p) :
    STORE_PRIORITY (storeNameOf sm r) = some p := by
  unfold storeNameOf at hp ⊢
  cases hl : lookupStr sm r.storeID with
  | none =>
    rw [hl] at hp
    rw [show strToLower ((none : Option String).getD "unknown") = "unknown"
      from rfl] at hp
    exact absurd hp (by rw [show STORE_PRIORITY "unknown" = none from rfl]; simp)
  | some nm =>
    rw [hl] at hp
    simp only [Option.getD_some] at hp ⊢
    obtain ⟨q, hq, hq2⟩ := List.mem_map.mp (lookupStr_some_mem sm r.storeID nm hl)
    have hlow : strToLower nm = nm := by rw [← hq2]; exact hnorm q hq
    rw [hlow] at hp
    exact hp

/-- Invariant of the uniqueGames accumulator: pairwise distinct keys, and
every stored deal is keyed by its own game identifier, has a non-null
steamAppID, and a store name that is a key of STORE_PRIORITY. -/
def validUG (ug : List (String × Deal)) : Prop :=
  (ug.map Prod.fst).Nodup ∧
  ∀ p ∈ ug, (p.2).gameID = p.1 ∧ (p.2).steamAppID ≠ none ∧
    (STORE_PRIORITY (p.2).storeName).isSome = true

/-- Helper: processDeal preserves the accumulator invariant. -/
theorem processDeal_validUG (sm : List (String × String))
    (hnorm : ∀ p ∈ sm, strToLower p.2 = p.2)
    (ug : List (String × Deal)) (r : RawDeal) (h : validUG ug) :
    validUG (processDeal sm ug r) := by
  unfold processDeal
  by_cases ht : truthyStr r.steamAppID = false
  · simpa [ht] using h
  · have ht' : truthyStr r.steamAppID = true := by
      cases hb : truthyStr r.steamAppID with
      | false => exact absurd hb ht
      | true => rfl
    simp only [ht', Bool.true_eq_false, if_false]
    cases hp : STORE_PRIORITY (strToLower (mkDeal sm r).storeName) with
    | none => simpa using h
    | some dealPrio =>
      have hpd : (STORE_PRIORITY (mkDeal sm r).storeName).isSome = true := by
        rw [show (mkDeal sm r).storeName = storeNameOf sm r from rfl] at hp ⊢
        rw [storeName_priority sm hnorm r dealPrio hp]
        rfl
      have hdeal : (mkDeal sm r).gameID = r.gameID ∧
          (mkDeal sm r).steamAppID ≠ none ∧
          (STORE_PRIORITY (mkDeal sm r).storeName).isSome = true :=
        ⟨rfl, truthyStr_ne_none r.steamAppID ht', hpd⟩
      cases hl : lookupStr ug r.gameID with
      | none =>
        simp only []
        constructor
        · rw [List.map_append]
          rw [List.nodup_append]
          refine ⟨h.1, List.nodup_singleton _, ?_⟩
          intro a ha hb
          simp only [List.map_cons, List.map_nil, List.mem_singleton] at hb
          rw [hb] at ha
          exact lookupStr_none_not_mem ug r.gameID hl ha
        · intro p hp'
          rcases List.mem_append.mp hp' with hm | hm
          · exact h.2 p hm
          · simp only [List.mem_singleton] at hm
            rw [hm]
            exact ⟨hdeal.1, hdeal.2.1, hdeal.2.2⟩
      | some current =>
        have hupd : validUG (updateUG ug r.gameID (mkDeal sm r)) := by
          constructor
          · rw [updateUG_keys]; exact h.1
          · intro p hp'
            rcases updateUG_mem ug r.gameID (mkDeal sm r) p hp' with hm | hm
            · exact h.2 p hm
            · rw [hm]
              exact ⟨hdeal.1, hdeal.2.1, hdeal.2.2⟩
        by_cases h1 : (mkDeal sm r).salePrice < current.salePrice
        · simpa [h1] using hupd
        · by_cases h2 : (mkDeal sm r).salePrice = current.salePrice
          · cases hcp : STORE_PRIORITY (strToLower current.storeName) with
            | none => simpa [h1, h2, hcp] using h
            | some currentPrio =>
              by_cases h3 : dealPrio < currentPrio
              · simpa [h1, h2, hcp, h3] using hupd
              · simpa [h1, h2, hcp, h3] using h
          · simpa [h1, h2] using h

/-- Helper: folding processDeal preserves the accumulator invariant. -/
theorem foldl_processDeal_validUG (sm : List (String × String))
    (hnorm : ∀ p ∈ sm, strToLower p.2 = p.2) (l : List RawDeal) :
    ∀ ug, validUG ug → validUG (l.foldl (processDeal sm) ug) := by
  induction l with
  | nil => intro ug h; simpa using h
  | cons r rest ih =>
    intro ug h
    rw [List.foldl_cons]
    exact ih _ (processDeal_validUG sm hnorm ug r h)

/-- Helper: the page loop preserves the accumulator invariant. -/
theorem fetchLoop_validUG (fetchPage : Nat → Except Unit (List RawDeal))
    (sm : List (String × String)) (hnorm : ∀ p ∈ sm, strToLower p.2 = p.2) :
    ∀ remaining page ug count, validUG ug →
      validUG (fetchLoop fetchPage sm remaining page ug count).uniqueGames := by
  intro remaining
  induction remaining with
  | zero => intro page ug count h; simpa [fetchLoop] using h
  | succ n ih =>
    intro page ug count h
    rw [fetchLoop_succ]
    by_cases hc : ug.length < 1000
    · cases hf : fetchPage page with
      | error e => simpa [hc, hf] using h
      | ok raws =>
        simp only [if_pos hc, hf]
        exact ih _ _ _ (foldl_processDeal_validUG sm hnorm raws ug h)
    · simpa [hc] using h

/-- C2: when fetchDeals succeeds, the entry stored for the fetched
currency holds deals with pairwise distinct game identifiers, each with a
non-null external app identifier (steamAppID) and a store name that is a
key of the store-priority table; deals failing either condition were
discarded. The normalization hypothesis on the store map reflects
loadStores, which lowercases and trims every store name (server.js
line 40). -/
theorem fetchDeals_output_props (fetchPage : Nat → Except Unit (List RawDeal))
    (sm : List (String × String)) (mc : String → Option (Option SteamMeta))
    (now : Nat) (cache : String → Option CacheEntry) (currency : String)
    (storeIDs : List String)
    (hnorm : ∀ p ∈ sm, strToLower p.2 = p.2)
    (hsucc : (fetchDeals fetchPage sm mc now cache currency storeIDs).outcome =
      FetchOutcome.success) :
    ∃ e, (fetchDeals fetchPage sm mc now cache currency storeIDs).cache
        currency = some e ∧
      (e.data.map Deal.gameID).Nodup ∧
      ∀ d ∈ e.data, d.steamAppID ≠ none ∧
        (STORE_PRIORITY d.storeName).isSome = true := by
  by_cases hlen : storeIDs.length = 0
  · simp [fetchDeals, hlen] at hsucc
  · by_cases hfail : (fetchLoop fetchPage sm 100 0 [] 0).failed = true
    · simp [fetchDeals, hlen, hfail] at hsucc
    · have hval : validUG (fetchLoop fetchPage sm 100 0 [] 0).uniqueGames :=
        fetchLoop_validUG fetchPage sm hnorm 100 0 [] 0
          ⟨List.nodup_nil, by simp⟩
      refine ⟨⟨now, ((fetchLoop fetchPage sm 100 0 [] 0).uniqueGames.map
          (fun p => p.2)).map
          (fun d => { d with steamMeta := (mc (appIdStr d)).getD none })⟩,
        ?_, ?_, ?_⟩
      · simp [fetchDeals, hlen, hfail]
      · rw [List.map_map, List.map_map]
        rw [show ((Deal.gameID ∘
            fun d => { d with steamMeta := (mc (appIdStr d)).getD none }) ∘
            fun p : String × Deal => p.2) =
          (fun p : String × Deal => (p.2).gameID) from rfl]
        rw [List.map_congr_left (fun p hp => (hval.2 p hp).1)]
        exact hval.1
      · intro d hd
        simp only [List.map_map, List.mem_map, Function.comp] at hd
        obtain ⟨p, hp, rfl⟩ := hd
        have hprops := hval.2 p hp
        exact ⟨hprops.2.1, hprops.2.2⟩

/-- Witness for C2 at a concrete successful aggregation. -/
theorem fetchDeals_output_props_witness :
    ∃ e, (fetchDeals (fun _ => Except.ok []) [("1", "steam")] (fun _ => none) 0
        (fun _ => none) "USD" ["1"]).cache "USD" = some e ∧
      (e.data.map Deal.gameID).Nodup ∧
      ∀ d ∈ e.data, d.steamAppID ≠ none ∧
        (STORE_PRIORITY d.storeName).isSome = true :=
  fetchDeals_output_props (fun _ => Except.ok []) [("1", "steam")]
    (fun _ => none) 0 (fun _ => none) "USD" ["1"] (by decide) (by decide)

/-- Helper: unfolding of one retry-loop iteration. -/
theorem retryLoop_succ (resp : Nat → SteamResp) (n attempts : Nat) :
    retryLoop resp (n + 1) attempts =
      (match resp (attempts + 1) with
      | SteamResp.ok info => ⟨some (parseInfo info), [], 1⟩
      | SteamResp.err => ⟨some none, [], 1⟩
      | SteamResp.throttle =>
        ⟨(retryLoop resp n (attempts + 1)).result,
          backoffDelay (attempts + 1) :: (retryLoop resp n (attempts + 1)).delays,
          (retryLoop resp n (attempts + 1)).attemptsUsed + 1⟩) := rfl

/-- Helper: the retry loop issues at most `remaining` attempts and its
k-th recorded delay (0-based) is the backoff of attempt
`attempts + k + 1`. -/
theorem retryLoop_delays (resp : Nat → SteamResp) :
    ∀ remaining attempts,
      (retryLoop resp remaining attempts).delays.length ≤ remaining ∧
      (retryLoop resp remaining attempts).attemptsUsed ≤ remaining ∧
      ∀ k (hk : k < (retryLoop resp remaining attempts).delays.length),
        (retryLoop resp remaining attempts).delays.get ⟨k, hk⟩ =
          backoffDelay (attempts + k + 1) := by
  intro remaining
  induction remaining with
  | zero =>
    intro attempts
    refine ⟨by simp [retryLoop], by simp [retryLoop], ?_⟩
    intro k hk
    simp [retryLoop] at hk
  | succ n ih =>
    intro attempts
    rw [retryLoop_succ]
    cases hr : resp (attempts + 1) with
    | ok info =>
      refine ⟨by simp, by simp, ?_⟩
      intro k hk
      simp at hk
    | err =>
      refine ⟨by simp, by simp, ?_⟩
      intro k hk
      simp at hk
    | throttle =>
      obtain ⟨ih1, ih2, ih3⟩ := ih (attempts + 1)
      refine ⟨by simpa using Nat.succ_le_succ ih1,
        by simpa using Nat.succ_le_succ ih2, ?_⟩
      intro k hk
      cases k with
      | zero => rfl
      | succ m =>
        simp only [List.length_cons] at hk
        have hm : m < (retryLoop resp n (attempts + 1)).delays.length :=
          Nat.lt_of_succ_lt_succ hk
        have := ih3 m hm
        simp only [List.get_cons_succ]
        rw [this]
        congr 1
        omega

/-- Counterexample for C5: with an always-throttling upstream stub, the
delay before the first retry is 2000 ms, not the claimed 1000 ms — the
code doubles from `1000 * 2 ^ attempts` with `attempts` already
incremented to 1. -/
theorem retry_backoff_first_delay_counterexample :
    (retryLoop (fun _ => SteamResp.throttle) MAX_ATTEMPTS 0).delays.head? =
      some 2000 ∧
    (retryLoop (fun _ => SteamResp.throttle) MAX_ATTEMPTS 0).delays.head? ≠
      some 1000 := by
  decide

/-- C5 (amended): on throttling responses (HTTP 429 or 403) the fetch is
retried with exponential backoff whose delay before the k-th retry
(k = 1, 2, ...) is min(30000, 1000·2^k) ms — 2000 ms on the first retry,
doubling on each subsequent attempt and capped at 30000 ms — for at most
30 attempts in total per identifier. -/
theorem retry_backoff_policy (resp : Nat → SteamResp) :
    (retryLoop resp MAX_ATTEMPTS 0).attemptsUsed ≤ 30 ∧
    (retryLoop resp MAX_ATTEMPTS 0).delays.length ≤ 30 ∧
    ∀ k (hk : k < (retryLoop resp MAX_ATTEMPTS 0).delays.length),
      (retryLoop resp MAX_ATTEMPTS 0).delays.get ⟨k, hk⟩ =
        min 30000 (1000 * 2 ^ (k + 1)) := by
  obtain ⟨h1, h2, h3⟩ := retryLoop_delays resp MAX_ATTEMPTS 0
  refine ⟨h2, h1, ?_⟩
  intro k hk
  rw [h3 k hk]
  simp [backoffDelay]

/-- Witness for C5's amended policy: at the all-throttle stub the first
recorded delay equals 2000 ms. -/
theorem retry_backoff_policy_witness :
    (retryLoop (fun _ => SteamResp.throttle) MAX_ATTEMPTS 0).delays.get
      ⟨0, by decide⟩ = 2000 := by
  rw [(retry_backoff_policy (fun _ => SteamResp.throttle)).2.2 0 (by decide)]
  decide

/-- C8: for every /deals read, `cached` is true exactly when an entry for
the normalized currency exists and is fresh (now - timestamp ≤ TTL, i.e.
not expired in the sense now - timestamp > TTL); a missing or expired
entry triggers exactly one refresh for that currency while a fresh one
triggers none; and the response is always built from the currently cached
data — count 0 and no deals when no entry exists. -/
theorem getDeals_spec (cache : String → Option CacheEntry) (now : Nat)
    (query : Option String) :
    ((getDeals cache now query).response.cached = true ↔
      ∃ e, cache (strToUpper (query.getD "USD")) = some e ∧
        now - e.timestamp ≤ CACHE_TTL) ∧
    ((cache (strToUpper (query.getD "USD")) = none ∨
      ∃ e, cache (strToUpper (query.getD "USD")) = some e ∧
        CACHE_TTL < now - e.timestamp) →
      (getDeals cache now query).refreshes =
        [strToUpper (query.getD "USD")]) ∧
    ((∃ e, cache (strToUpper (query.getD "USD")) = some e ∧
        now - e.timestamp ≤ CACHE_TTL) →
      (getDeals cache now query).refreshes = []) ∧
    (cache (strToUpper (query.getD "USD")) = none →
      (getDeals cache now query).response.count = 0 ∧
      (getDeals cache now query).response.deals = []) ∧
    (∀ e, cache (strToUpper (query.getD "USD")) = some e →
      (getDeals cache now query).response.count = e.data.length ∧
      (getDeals cache now query).response.deals = e.data) := by
  cases hc : cache (strToUpper (query.getD "USD")) with
  | none => refine ⟨?_, ?_, ?_, ?_, ?_⟩ <;> simp [getDeals, hc]
  | some e =>
    by_cases hexp : CACHE_TTL < now - e.timestamp
    · refine ⟨?_, ?_, ?_, ?_, ?_⟩ <;>
        simp [getDeals, hc, hexp, not_le.mpr hexp] <;> omega
    · refine ⟨?_, ?_, ?_, ?_, ?_⟩ <;>
        simp [getDeals, hc, hexp, Nat.not_lt.mp hexp] <;> omega

/-- Witness for C8: a read on an empty cache answers not-cached with
count 0 and no deals, and triggers exactly one refresh for "USD". -/
theorem getDeals_spec_witness :
    (getDeals (fun _ => none) 0 none).refreshes = ["USD"] ∧
    (getDeals (fun _ => none) 0 none).response.count = 0 ∧
    (getDeals (fun _ => none) 0 none).response.deals = [] := by
  have h := getDeals_spec (fun _ => none) 0 none
  exact ⟨h.2.1 (Or.inl rfl), (h.2.2.2.1 rfl).1, (h.2.2.2.1 rfl).2⟩

/-- C10: the /deals read path uppercases the currency query parameter
(default "USD") before every cache lookup and refresh trigger — requests
for "usd" and "USD" behave identically and the absent query behaves like
"USD"; the response currency and any triggered refresh use exactly the
uppercased key; and a successful triggered fetchDeals installs an entry
under exactly the currency key it was called with, so any currency string
gets its own entry once the refresh succeeds. -/
theorem currency_case_insensitive (cache : String → Option CacheEntry)
    (now : Nat) :
    (getDeals cache now (some "usd") = getDeals cache now (some "USD")) ∧
    (getDeals cache now none = getDeals cache now (some "USD")) ∧
    (∀ q, (getDeals cache now (some q)).response.currency = strToUpper q ∧
      ((getDeals cache now (some q)).refreshes = [] ∨
       (getDeals cache now (some q)).refreshes = [strToUpper q])) ∧
    (∀ (fetchPage : Nat → Except Unit (List RawDeal))
        (sm : List (String × String)) (mc : String → Option (Option SteamMeta))
        (now2 : Nat) (currency : String) (storeIDs : List String),
      (fetchDeals fetchPage sm mc now2 cache currency storeIDs).outcome =
        FetchOutcome.success →
      ((fetchDeals fetchPage sm mc now2 cache currency
        storeIDs).cache currency).isSome = true) := by
  refine ⟨rfl, rfl, ?_, ?_⟩
  · intro q
    refine ⟨rfl, ?_⟩
    cases hc : cache (strToUpper q) with
    | none => right; simp [getDeals, hc]
    | some e =>
      by_cases hexp : CACHE_TTL < now - e.timestamp
      · right; simp [getDeals, hc, hexp]
      · left; simp [getDeals, hc, hexp]
  · intro fetchPage sm mc now2 currency storeIDs hsucc
    by_cases hlen : storeIDs.length = 0
    · simp [fetchDeals, hlen] at hsucc
    · by_cases hfail : (fetchLoop fetchPage sm 100 0 [] 0).failed = true
      · simp [fetchDeals, hlen, hfail] at hsucc
      · simp [fetchDeals, hlen, hfail]

/-- Witness for C10: a successful triggered refresh for the untracked
currency "EUR" installs a cache entry under the key "EUR". -/
theorem currency_case_insensitive_witness :
    ((fetchDeals (fun _ => Except.ok []) [] (fun _ => none) 5 (fun _ => none)
      "EUR" ["1"]).cache "EUR").isSome = true :=
  (currency_case_insensitive (fun _ => none) 0).2.2.2
    (fun _ => Except.ok []) [] (fun _ => none) 5 "EUR" ["1"] (by decide)

/-- C7: enrichment failures are isolated per identifier — when the first
identifier terminally fails (non-throttling error on its first attempt,
recorded as fetched-and-absent) the remaining identifier is still
enriched: it ends fetched-and-present with its parsed metadata while the
failed one is marked fetched-and-absent (null). -/
theorem enrich_isolation (resp : String → Nat → SteamResp)
    (mc : String → Option (Option SteamMeta)) (cache : String → Option CacheEntry)
    (dA dB : Deal) (idA idB : String) (m : SteamMeta)
    (hA : dA.steamAppID = some idA) (hAt : truthyStr dA.steamAppID = true)
    (hB : dB.steamAppID = some idB) (hBt : truthyStr dB.steamAppID = true)
    (hne : idA ≠ idB) (hmA : mc idA = none) (hmB : mc idB = none)
    (hfail : resp idA 1 = SteamResp.err)
    (hok : (retryLoop (resp idB) MAX_ATTEMPTS 0).result = some (some m)) :
    (enrich resp mc cache [dA, dB]).1 idA = some none ∧
    (enrich resp mc cache [dA, dB]).1 idB = some (some m) := by
  have hidA : appIdStr dA = idA := by simp [appIdStr, hA]
  have hidB : appIdStr dB = idB := by simp [appIdStr, hB]
  have hAt' : truthyStr (some idA) = true := by rw [← hA]; exact hAt
  have hBt' : truthyStr (some idB) = true := by rw [← hB]; exact hBt
  have hfilter : filterSteamDeals mc [] [dA, dB] = [dA, dB] := by
    simp only [filterSteamDeals, hA, hB, hidA, hidB]
    simp [hAt', hBt', hmA, hmB, Ne.symm hne, appIdStr]
  have hrA : (retryLoop (resp idA) MAX_ATTEMPTS 0).result = some none := by
    rw [show MAX_ATTEMPTS = 29 + 1 from rfl, retryLoop_succ]
    simp [hfail]
  unfold enrich
  rw [hfilter]
  simp only [enrichLoop, hidA, hidB, hmA]
  rw [hrA]
  simp only [applyResolution]
  have hmB' : (fun k => if k = idA then some (none : Option SteamMeta) else mc k)
      idB = none := by simp [Ne.symm hne, hmB]
  simp only [enrichLoop, hidB, hmB']
  rw [hok]
  simp only [applyResolution, enrichLoop]
  constructor
  · simp [hne]
  · simp

/-- Deal A of the C7 witness. -/
def dealC7a : Deal :=
  { gameID := "ga", steamAppID := some "1", storeID := "1",
    storeName := "steam", salePrice := 1, steamMeta := none }

/-- Deal B of the C7 witness. -/
def dealC7b : Deal :=
  { gameID := "gb", steamAppID := some "2", storeID := "1",
    storeName := "steam", salePrice := 1, steamMeta := none }

/-- Steam response stub of the C7 witness: identifier "1" always fails
terminally, every other identifier answers successfully. -/
def respC7 : String → Nat → SteamResp :=
  fun id _ =>
    if id = "1" then SteamResp.err
    else SteamResp.ok (some ⟨true, ⟨"B", none, none, none, none⟩⟩)

/-- Metadata parsed from the C7 stub's successful response. -/
def metaC7 : SteamMeta := ⟨"B", none, none, [], [], none⟩

/-- Witness for C7 at the concrete stub: "1" ends fetched-and-absent,
"2" ends fetched-and-present. -/
theorem enrich_isolation_witness :
    (enrich respC7 (fun _ => none) (fun _ => none) [dealC7a, dealC7b]).1 "1" =
      some none ∧
    (enrich respC7 (fun _ => none) (fun _ => none) [dealC7a, dealC7b]).1 "2" =
      some (some metaC7) :=
  enrich_isolation respC7 (fun _ => none) (fun _ => none) dealC7a dealC7b
    "1" "2" metaC7 rfl (by decide) rfl (by decide) (by decide) rfl rfl
    rfl (by decide)

/-- Matching USD head deal of the C6 counterexample (metadata still the
null placeholder). -/
def dealC6 : Deal :=
  { gameID := "g1", steamAppID := some "42", storeID := "1",
    storeName := "steam", salePrice := 1, steamMeta := none }

/-- Second cached USD deal carrying the same external app id. -/
def dealC6b : Deal :=
  { gameID := "g2", steamAppID := some "42", storeID := "1",
    storeName := "steam", salePrice := 2, steamMeta := none }

/-- Currency cache of the C6 counterexample: a tracked USD entry holding
two matching deals and an untracked EUR entry holding one matching deal. -/
def cacheC6 : String → Option CacheEntry := fun c =>
  if c = "USD" then some ⟨7, [dealC6, dealC6b]⟩
  else if c = "EUR" then some ⟨9, [dealC6]⟩
  else none

/-- Response stub of the C6 counterexample: every request succeeds. -/
def respC6 : String → Nat → SteamResp :=
  fun _ _ => SteamResp.ok (some ⟨true, ⟨"Game", none, none, none, none⟩⟩)

/-- Metadata resolved by the C6 stub. -/
def metaC6 : SteamMeta := ⟨"Game", none, none, [], [], none⟩

/-- Counterexample for C6: after identifier "42" resolves during
enrichment, the second matching USD deal and the matching deal of the
untracked EUR entry keep their old metadata, although both match — so not
every currently cached matching deal across all currencies is patched. -/
theorem enrich_patch_counterexample :
    (enrich respC6 (fun _ => none) cacheC6 [dealC6]).2 "USD" =
      some ⟨7, [{ dealC6 with steamMeta := some metaC6 }, dealC6b]⟩ ∧
    (enrich respC6 (fun _ => none) cacheC6 [dealC6]).2 "EUR" =
      some ⟨9, [dealC6]⟩ ∧
    appIdStr dealC6b = "42" ∧ dealC6b.steamMeta ≠ some metaC6 ∧
    appIdStr dealC6 = "42" ∧ dealC6.steamMeta ≠ some metaC6 := by
  decide

/-- Helper: patchOne leaves every other currency key unchanged. -/
theorem patchOne_ne (id : String) (v : Option SteamMeta)
    (cache : String → Option CacheEntry) (cur c : String) (h : c ≠ cur) :
    patchOne id v cache cur c = cache c := by
  unfold patchOne
  cases cache cur with
  | none => rfl
  | some e => simp [h]

/-- Helper: patchOne at its own currency patches the first match of the
entry's deals and keeps the timestamp. -/
theorem patchOne_eq (id : String) (v : Option SteamMeta)
    (cache : String → Option CacheEntry) (cur : String) :
    patchOne id v cache cur cur =
      (match cache cur with
      | none => none
      | some e => some ⟨e.timestamp, patchFirst id v e.data⟩) := by
  unfold patchOne
  cases hc : cache cur with
  | none => exact hc
  | some e => simp

/-- Helper: patchCache leaves untracked currencies alone. -/
theorem patchCache_not_mem (cache : String → Option CacheEntry) (id : String)
    (v : Option SteamMeta) (c : String) (h : c ∉ CURRENCIES) :
    patchCache cache id v c = cache c := by
  have h1 : c ≠ "USD" := fun he => h (by rw [he, CURRENCIES]; simp)
  have h2 : c ≠ "CAD" := fun he => h (by rw [he, CURRENCIES]; simp)
  unfold patchCache
  rw [show CURRENCIES = ["USD", "CAD"] from rfl]
  simp only [List.foldl_cons, List.foldl_nil]
  rw [patchOne_ne _ _ _ _ _ h2, patchOne_ne _ _ _ _ _ h1]

/-- Helper: patchCache at a tracked currency patches that entry's first
matching deal and keeps its timestamp. -/
theorem patchCache_mem (cache : String → Option CacheEntry) (id : String)
    (v : Option SteamMeta) (c : String) (h : c ∈ CURRENCIES) :
    patchCache cache id v c =
      (match cache c with
      | none => none
      | some e => some ⟨e.timestamp, patchFirst id v e.data⟩) := by
  have hcur : c = "USD" ∨ c = "CAD" := by
    rw [CURRENCIES] at h
    simpa using h
  unfold patchCache
  rw [show CURRENCIES = ["USD", "CAD"] from rfl]
  simp only [List.foldl_cons, List.foldl_nil]
  rcases hcur with rfl | rfl
  · rw [patchOne_ne _ _ _ _ _ (by decide : ("USD" : String) ≠ "CAD")]
    exact patchOne_eq id v cache "USD"
  · rw [patchOne_eq id v (patchOne id v cache "USD") "CAD",
      patchOne_ne _ _ _ _ _ (by decide : ("CAD" : String) ≠ "USD")]

/-- Helper: patchFirst is the identity when no deal matches. -/
theorem patchFirst_no_match (id : String) (v : Option SteamMeta)
    (l : List Deal) (h : ∀ d ∈ l, appIdStr d ≠ id) : patchFirst id v l = l := by
  induction l with
  | nil => rfl
  | cons d rest ih =>
    have hd := h d (List.mem_cons_self _ _)
    simp only [patchFirst, if_neg hd]
    rw [ih (fun d2 h2 => h d2 (List.mem_cons_of_mem _ h2))]

/-- Helper: patchFirst patches exactly the first matching deal. -/
theorem patchFirst_first_match (id : String) (v : Option SteamMeta)
    (pre : List Deal) (d : Deal) (post : List Deal)
    (hpre : ∀ d2 ∈ pre, appIdStr d2 ≠ id) (hd : appIdStr d = id) :
    patchFirst id v (pre ++ d :: post) =
      pre ++ { d with steamMeta := v } :: post := by
  induction pre with
  | nil => simp [patchFirst, hd]
  | cons p rest ih =>
    have hp := hpre p (List.mem_cons_self _ _)
    simp only [List.cons_append, patchFirst, if_neg hp, List.append_eq]
    rw [ih (fun d2 h2 => hpre d2 (List.mem_cons_of_mem _ h2))]

/-- C6 (amended): when an identifier's metadata resolves (success or
terminal failure) during enrichment, the value is written into the
metadata store under that identifier (other keys untouched), and the
currency-cache patch touches only the tracked currencies USD and CAD; in
each such entry only the first deal whose external app identifier matches
has its metadata field replaced, and the entry's timestamp, every other
deal, and every untracked currency's entry are unchanged. -/
theorem applyResolution_spec (mc : String → Option (Option SteamMeta))
    (cache : String → Option CacheEntry) (id : String) (v : Option SteamMeta) :
    (applyResolution mc cache id v).1 id = some v ∧
    (∀ k, k ≠ id → (applyResolution mc cache id v).1 k = mc k) ∧
    (∀ c, c ∉ CURRENCIES → (applyResolution mc cache id v).2 c = cache c) ∧
    (∀ c e, c ∈ CURRENCIES → cache c = some e →
      (applyResolution mc cache id v).2 c =
        some ⟨e.timestamp, patchFirst id v e.data⟩) ∧
    (∀ l, (∀ d ∈ l, appIdStr d ≠ id) → patchFirst id v l = l) ∧
    (∀ pre d post, (∀ d2 ∈ pre, appIdStr d2 ≠ id) → appIdStr d = id →
      patchFirst id v (pre ++ d :: post) =
        pre ++ { d with steamMeta := v } :: post) := by
  refine ⟨by simp [applyResolution], ?_, ?_, ?_, ?_, ?_⟩
  · intro k hk
    simp [applyResolution, hk]
  · intro c hc
    exact patchCache_not_mem cache id v c hc
  · intro c e hc he
    have h := patchCache_mem cache id v c hc
    rw [he] at h
    simpa using h
  · exact patchFirst_no_match id v
  · exact patchFirst_first_match id v

/-- Witness for C6's amended patch behaviour at the concrete cache: the
untracked EUR entry is untouched and the USD entry is patched through
patchFirst with its timestamp kept. -/
theorem applyResolution_spec_witness :
    (applyResolution (fun _ => none) cacheC6 "42" (some metaC6)).2 "EUR" =
      cacheC6 "EUR" ∧
    (applyResolution (fun _ => none) cacheC6 "42" (some metaC6)).2 "USD" =
      some ⟨7, patchFirst "42" (some metaC6) [dealC6, dealC6b]⟩ := by
  have h := applyResolution_spec (fun _ => none) cacheC6 "42" (some metaC6)
  exact ⟨h.2.2.1 "EUR" (by decide),
    h.2.2.2.1 "USD" ⟨7, [dealC6, dealC6b]⟩ (by decide) (by decide)⟩
